import Mathlib

/-!
Shallow embedding of the student-management core from `RefactorCode.cpp`.

Conventions of the embedding:
* C++ `float` values (marks, percentages, GPAs) are modelled as exact
  rationals `ℚ`; C++ `int` as `ℤ`.
* `std::string` fields are Lean `String`s.
* The in-memory roster (`vector<Student> students`) is a `List Student`;
  each interactive member function becomes a pure function from its parsed
  console inputs and the current roster to the new roster / result.
-/

namespace StudentMgmt

/-- DefaultGradeStrategy::calculateGrade: threshold chain over the percentage. -/
def calcGrade (p : ℚ) : Char :=
  if p ≥ 90 then 'A'
  else if p ≥ 80 then 'B'
  else if p ≥ 70 then 'C'
  else if p ≥ 60 then 'D'
  else 'F'

/-- DefaultGradeStrategy::calculateGPA: same threshold chain, numeric result. -/
def calcGPA (p : ℚ) : ℚ :=
  if p ≥ 90 then 4
  else if p ≥ 80 then 3
  else if p ≥ 70 then 2
  else if p ≥ 60 then 1
  else 0

/-- struct AttendanceRecord: a date string and a status string
("Present"/"Absent" on every path the program itself creates, but the field
is a plain `std::string`). -/
structure AttendanceRecord where
  date : String
  status : String
deriving DecidableEq

/-- struct Student, with the C++ member initialisers as Lean field defaults
(`marks[5] = {}`, `percentage = 0`, `grade = 'F'`, `gpa = 0.0`). -/
structure Student where
  name : String := ""
  rollNo : ℤ := 0
  studentClass : String := ""
  age : ℤ := 0
  gender : String := ""
  marks : Fin 5 → ℚ := fun _ => 0
  percentage : ℚ := 0
  grade : Char := 'F'
  attendanceRecords : List AttendanceRecord := []
  gpa : ℚ := 0
deriving DecidableEq

/-- Build the five-element marks array from its entries. -/
def mkMarks (m0 m1 m2 m3 m4 : ℚ) : Fin 5 → ℚ := fun i =>
  if i.val = 0 then m0
  else if i.val = 1 then m1
  else if i.val = 2 then m2
  else if i.val = 3 then m3
  else m4

theorem mkMarks_eta (m : Fin 5 → ℚ) :
    mkMarks (m 0) (m 1) (m 2) (m 3) (m 4) = m := by
  funext i
  unfold mkMarks
  rcases i with ⟨v, hv⟩
  interval_cases v <;> simp

/-- The accumulation loop `for (float mark : s.marks) total += mark`. -/
def sumMarks (m : Fin 5 → ℚ) : ℚ :=
  m 0 + m 1 + m 2 + m 3 + m 4

/-- GradeCalculator::calculateGrade (with the DefaultGradeStrategy injected,
as `MenuSystem`'s constructor does): recompute percentage, grade and gpa
from the current marks. -/
def recomputeGrade (s : Student) : Student :=
  let p := sumMarks s.marks / 5
  { s with percentage := p, grade := calcGrade p, gpa := calcGPA p }

/-- The derived-field invariant stated in the specification: percentage,
grade and gpa agree with the current marks. -/
def derivedConsistent (s : Student) : Prop :=
  s.percentage = sumMarks s.marks / 5 ∧
    s.grade = calcGrade s.percentage ∧ s.gpa = calcGPA s.percentage

instance (s : Student) : Decidable (derivedConsistent s) := by
  unfold derivedConsistent; infer_instance

/-! ## Roster operations (StudentOperations / ExtendedStudentOperations) -/

/-- StudentOperations::addStudent: builds a record from the console inputs
(marks stay at their zero defaults), recomputes the derived fields, and
appends it to the roster. -/
def addStudent (name : String) (roll : ℤ) (cls : String) (age : ℤ)
    (gender : String) (roster : List Student) : List Student :=
  roster ++ [recomputeGrade
    { name := name, rollNo := roll, studentClass := cls,
      age := age, gender := gender }]

/-- StudentOperations::updateStudent: `find_if` locates the first record with
the given roll; if found its identity fields are overwritten in place and the
derived fields recomputed; result pairs the new roster with the found flag. -/
def updateStudent (roll : ℤ) (name cls : String) (age : ℤ) (gender : String) :
    List Student → List Student × Bool
  | [] => ([], false)
  | s :: rest =>
      if s.rollNo = roll then
        let s' := { s with name := name, studentClass := cls, age := age, gender := gender }
        (recomputeGrade s' :: rest, true)
      else
        let r := updateStudent roll name cls age gender rest
        (s :: r.1, r.2)

/-- ExtendedStudentOperations::enterMarks: `find_if` locates the first record
with the given roll; if found its five marks are overwritten and the derived
fields recomputed. -/
def enterMarks (roll : ℤ) (m : Fin 5 → ℚ) :
    List Student → List Student × Bool
  | [] => ([], false)
  | s :: rest =>
      if s.rollNo = roll then
        (recomputeGrade { s with marks := m } :: rest, true)
      else
        let r := enterMarks roll m rest
        (s :: r.1, r.2)

/-- StudentOperations::deleteStudent: `remove_if` + `erase` keep, in order,
exactly the records whose roll differs; the `new_end != end` test (something
was removed) is the success flag. -/
def deleteStudent (roll : ℤ) (roster : List Student) : List Student × Bool :=
  let remaining := roster.filter (fun s => decide (s.rollNo ≠ roll))
  (remaining, decide (remaining.length ≠ roster.length))

/-- StudentOperations::sortStudents calls `std::sort` with comparator
`a.rollNo < b.rollNo`. `std::sort` promises only that the output is a
permutation of the input that is sorted for the comparator (for a strict
weak order this means non-decreasing keys); it promises nothing about the
relative order of equivalent elements.  The call is therefore embedded as
this postcondition relation over (input, output) pairs. -/
def sortStudentsPost (inp out : List Student) : Prop :=
  inp.Perm out ∧ out.Sorted (fun a b => a.rollNo ≤ b.rollNo)

instance (inp out : List Student) : Decidable (sortStudentsPost inp out) := by
  unfold sortStudentsPost; infer_instance

/-- The scan loop of ExtendedStudentOperations::findTopper, carrying the
running `maxPercentage` and the pointer to the best record so far. -/
def findTopperAux (cls : String) : ℚ → Option Student → List Student → Option Student
  | _, top, [] => top
  | maxP, top, s :: rest =>
      if s.studentClass = cls ∧ maxP < s.percentage then
        findTopperAux cls s.percentage (some s) rest
      else
        findTopperAux cls maxP top rest

/-- ExtendedStudentOperations::findTopper: scan with `maxPercentage = -1`
and a null topper pointer; a record is taken only when it is in the class
and its percentage is strictly greater than the running maximum. -/
def findTopper (cls : String) (roster : List Student) : Option Student :=
  findTopperAux cls (-1) none roster

/-- The attendance-percentage helper shared by the operation classes:
0 on an empty ledger, else `present / total * 100`. -/
def attendancePercentage (s : Student) : ℚ :=
  if s.attendanceRecords = [] then 0
  else ((s.attendanceRecords.filter
          (fun r => decide (r.status = "Present"))).length : ℚ)
        / (s.attendanceRecords.length : ℚ) * 100

/-- The aggregate numbers printed by ExtendedStudentOperations::showStatistics
for a non-empty class. -/
structure ClassStats where
  count : ℕ
  avgPercentage : ℚ
  avgGPA : ℚ
  avgGPA5 : ℚ
  avgAttendance : ℚ
  gradeDist : Char → ℕ

/-- The class filter at the head of showStatistics (and the reports): the
records whose `studentClass` equals the requested class, in roster order. -/
def classFilter (cls : String) (roster : List Student) : List Student :=
  roster.filter (fun s => decide (s.studentClass = cls))

/-- ExtendedStudentOperations::showStatistics: filter the roster by class;
an empty filtered set is reported as a distinct no-students outcome (`none`)
before any totals or divisions happen; otherwise the averages are totals
over the filtered set divided by its size. -/
def showStatistics (cls : String) (roster : List Student) : Option ClassStats :=
  let classStudents := classFilter cls roster
  if classStudents = [] then none
  else
    let n : ℚ := (classStudents.length : ℚ)
    some
      { count := classStudents.length
        avgPercentage := (classStudents.map (·.percentage)).sum / n
        avgGPA := (classStudents.map (·.gpa)).sum / n
        avgGPA5 := (classStudents.map (·.gpa)).sum / n * 5 / 4
        avgAttendance := (classStudents.map attendancePercentage).sum / n
        gradeDist := fun g =>
          (classStudents.filter (fun s => decide (s.grade = g))).length }

/-! ## Monthly attendance aggregation (viewMonthlyAttendance) -/

/-- std::string::substr(pos, len): throws `std::out_of_range` when
`pos > size()`, else yields the characters `[pos, pos + len)` clipped to the
end of the string.  The throwing case is `none`. -/
def substrCpp (s : String) (pos len : ℕ) : Option String :=
  if pos ≤ s.length then some (String.mk ((s.toList.drop pos).take len))
  else none

/-- The month key built in viewMonthlyAttendance:
`date.substr(5, 2) + "-" + date.substr(0, 4)`; `none` when a substr throws. -/
def monthKey (date : String) : Option String := do
  let m ← substrCpp date 5 2
  let y ← substrCpp date 0 4
  some (m ++ "-" ++ y)

/-- The per-student counting loop of viewMonthlyAttendance: walk the ledger,
count matching-month entries and how many of them are "Present"; `none`
when any entry's date makes `substr(5, 2)` throw. -/
def monthlyCounts (monthYear : String) :
    List AttendanceRecord → Option (ℕ × ℕ)
  | [] => some (0, 0)
  | a :: rest => do
      let k ← monthKey a.date
      let pt ← monthlyCounts monthYear rest
      if k = monthYear then
        some (pt.1 + (if a.status = "Present" then 1 else 0), pt.2 + 1)
      else
        some pt

/-! ## Native-store persistence (FileHandler::saveToFile / loadFromFile)

The store is whitespace-delimited text read back with `operator>>`, so it is
modelled at the token level: the file is the list of maximal
whitespace-free chunks, in order.  A token written by `<<` for a numeric
field is kept as its exact value (`Tok.int` / `Tok.rat` — the idealisation of
this embedding, where C++ floats are exact rationals and their decimal
round-trip is exact); a string field contributes one `Tok.str` per
whitespace-separated chunk of its text (an empty string contributes no
token at all), which is exactly how multi-word values shift the reader. -/

inductive Tok where
  | str (s : String)
  | int (n : ℤ)
  | rat (q : ℚ)
deriving DecidableEq

def isWSChar (c : Char) : Bool :=
  c = ' ' || c = '\n' || c = '\t' || c = '\r'

/-- Split a character list on whitespace, dropping empty chunks
(`acc` is the current chunk, reversed). -/
def splitWSAux : List Char → List Char → List (List Char)
  | [], acc => if acc = [] then [] else [acc.reverse]
  | c :: rest, acc =>
      if isWSChar c then
        (if acc = [] then splitWSAux rest [] else acc.reverse :: splitWSAux rest [])
      else splitWSAux rest (c :: acc)

/-- The tokens a string field contributes to the store when written raw
between separators. -/
def fieldToks (s : String) : List Tok :=
  (splitWSAux s.toList []).map (fun l => Tok.str (String.mk l))

/-- A string is a single store token: non-empty and free of internal
whitespace, so it reads back as itself. -/
def singleTok (s : String) : Prop := fieldToks s = [Tok.str s]

instance (s : String) : Decidable (singleTok s) := by
  unfold singleTok; infer_instance

/-- The effect of `fixed << setprecision(2)` on the written gpa: it is
persisted rounded to two decimal places. -/
def fix2 (q : ℚ) : ℚ := (round (q * 100) : ℤ) / 100

/-- One line of FileHandler::saveToFile:
`name roll class age gender mark0..mark4 count (date status)* gpa`. -/
def saveStudent (s : Student) : List Tok :=
  fieldToks s.name ++ [Tok.int s.rollNo] ++ fieldToks s.studentClass
    ++ [Tok.int s.age] ++ fieldToks s.gender
    ++ [Tok.rat (s.marks 0), Tok.rat (s.marks 1), Tok.rat (s.marks 2),
        Tok.rat (s.marks 3), Tok.rat (s.marks 4)]
    ++ [Tok.int (s.attendanceRecords.length : ℤ)]
    ++ (s.attendanceRecords.flatMap fun a => fieldToks a.date ++ fieldToks a.status)
    ++ [Tok.rat (fix2 s.gpa)]

/-- FileHandler::saveToFile over the whole roster (newlines are just more
whitespace to the reader, so lines simply concatenate). -/
def saveToFile (roster : List Student) : List Tok :=
  roster.flatMap saveStudent

/-! ## Numeric extraction

`operator>>` on an arithmetic target (and `stoi`/`stof` on a field) consumes
the longest leading numeral of the text and converts it; any unconsumed
remainder stays in the stream for the next read.  Extraction fails — and,
since C++11, stores 0 when the sentry had succeeded — only when no leading
numeral exists.  Exponents, hex, inf/nan are not modelled: no numeral this
program writes, and no token a theorem here examines, uses them. -/

/-- Longest digit run at the head of the text, and the unconsumed rest. -/
def takeDigits : List Char → List Char × List Char
  | [] => ([], [])
  | c :: cs =>
      if '0' ≤ c ∧ c ≤ '9' then
        (c :: (takeDigits cs).1, (takeDigits cs).2)
      else ([], c :: cs)

/-- Value of a digit run. -/
def digitsVal (l : List Char) : ℕ :=
  l.foldl (fun a c => 10 * a + (c.toNat - '0'.toNat)) 0

/-- Unsigned integer extraction: the digit-run value and the unconsumed
rest, or `none` when the text does not start with a digit. -/
def extractIntCore (cs : List Char) : Option (ℕ × List Char) :=
  match takeDigits cs with
  | (c :: ds, rest) => some (digitsVal (c :: ds), rest)
  | ([], _) => none

/-- Integer extraction `[sign]digits`: value and unconsumed rest. -/
def extractInt : List Char → Option (ℤ × List Char)
  | '-' :: cs => (extractIntCore cs).map (fun p => (-(p.1 : ℤ), p.2))
  | '+' :: cs => (extractIntCore cs).map (fun p => ((p.1 : ℤ), p.2))
  | cs => (extractIntCore cs).map (fun p => ((p.1 : ℤ), p.2))

/-- Unsigned float extraction `digits[.digits] | .digits`: value and
unconsumed rest. -/
def extractRatMag (cs : List Char) : Option (ℚ × List Char) :=
  match takeDigits cs with
  | (i :: ds, rest) =>
      match rest with
      | '.' :: cs2 =>
          some ((digitsVal (i :: ds) : ℚ)
              + (digitsVal (takeDigits cs2).1 : ℚ) / (10 : ℚ) ^ (takeDigits cs2).1.length,
            (takeDigits cs2).2)
      | _ => some ((digitsVal (i :: ds) : ℚ), rest)
  | ([], _) =>
      match cs with
      | '.' :: cs2 =>
          match takeDigits cs2 with
          | (f :: fs, rest2) =>
              some ((digitsVal (f :: fs) : ℚ) / (10 : ℚ) ^ (f :: fs).length, rest2)
          | ([], _) => none
      | _ => none

/-- Float extraction `[sign](digits[.digits] | .digits)`: value and
unconsumed rest. -/
def extractRat : List Char → Option (ℚ × List Char)
  | '-' :: cs => (extractRatMag cs).map (fun p => (-p.1, p.2))
  | '+' :: cs => extractRatMag cs
  | cs => extractRatMag cs

/-- std::stoi on a CSV field: parses the longest leading `[sign]digits`
numeral, ignoring any remainder of the field; throws (`none`) only when
there is no leading numeral. -/
def decIntStr (s : String) : Option ℤ :=
  (extractInt s.toList).map (fun p => p.1)

/-- std::stof on a CSV field: parses the longest leading numeral, ignoring
any remainder of the field; throws (`none`) only when there is none. -/
def decRatStr (s : String) : Option ℚ :=
  (extractRat s.toList).map (fun p => p.1)

/-- The text a token reads back as for `operator>> (string&)` (a numeral
reads back as its decimal text; `toString` on an exact rational is an
idealisation, reachable only on corrupted-alignment streams that no theorem
here exercises). -/
def readStrT : Tok → String
  | .str s => s
  | .int n => toString n
  | .rat q => toString q

/-- Reading a string from the stream: the sentry fails at end of input,
leaving the target unchanged (callers handle that); otherwise the next
token is consumed whole — a string read never fails on an available
token. -/
def readStrTok : List Tok → Option (String × List Tok)
  | [] => none
  | t :: rest => some (readStrT t, rest)

/-- Reading an int from the stream: `operator>>` consumes the longest
leading numeral of the next token and leaves the unconsumed remainder in
the stream (pushed back as a shorter text token); it fails at end of input
(sentry) or when the token has no leading numeral.  A fractional numeral
(`Tok.rat` with denominator ≠ 1) at an int read would really be split at
the decimal point; that alignment is unreachable in every theorem here and
is modelled as a failure. -/
def readIntTok : List Tok → Option (ℤ × List Tok)
  | [] => none
  | Tok.int n :: rest => some (n, rest)
  | Tok.rat q :: rest => if q.den = 1 then some (q.num, rest) else none
  | Tok.str s :: rest =>
      match extractInt s.toList with
      | none => none
      | some (n, []) => some (n, rest)
      | some (n, c :: cs) => some (n, Tok.str (String.mk (c :: cs)) :: rest)

/-- Reading a float from the stream, with the same prefix consumption and
pushback as the int read. -/
def readRatTok : List Tok → Option (ℚ × List Tok)
  | [] => none
  | Tok.rat q :: rest => some (q, rest)
  | Tok.int n :: rest => some ((n : ℚ), rest)
  | Tok.str s :: rest =>
      match extractRat s.toList with
      | none => none
      | some (q, []) => some (q, rest)
      | some (q, c :: cs) => some (q, Tok.str (String.mk (c :: cs)) :: rest)

/-! ## A size measure for token streams

Pushback can replace a token by a shorter one without shortening the list,
so recursion over the stream is measured by the total text size. -/

def tokSize : Tok → ℕ
  | .str s => 1 + s.length
  | .int _ => 1
  | .rat _ => 1

def streamSize (l : List Tok) : ℕ := (l.map tokSize).sum

theorem takeDigits_length (l : List Char) :
    (takeDigits l).1.length + (takeDigits l).2.length = l.length := by
  induction l with
  | nil => simp [takeDigits]
  | cons c cs ih =>
      simp only [takeDigits]
      split_ifs
      · simp only [List.length_cons]
        omega
      · simp

theorem extractIntCore_length {cs : List Char} {v : ℕ} {rest : List Char}
    (h : extractIntCore cs = some (v, rest)) : rest.length < cs.length := by
  unfold extractIntCore at h
  split at h
  · next c ds rest0 heq =>
      simp only [Option.some.injEq, Prod.mk.injEq] at h
      obtain ⟨-, rfl⟩ := h
      have hl := takeDigits_length cs
      rw [heq] at hl
      simp only [List.length_cons] at hl
      omega
  · exact absurd h (by simp)

theorem extractInt_length {l : List Char} {n : ℤ} {rest : List Char}
    (h : extractInt l = some (n, rest)) : rest.length < l.length := by
  unfold extractInt at h
  split at h
  · rename_i cs
    cases hcore : extractIntCore cs with
    | none => rw [hcore] at h; exact absurd h (by simp)
    | some p =>
        obtain ⟨v, r0⟩ := p
        rw [hcore] at h
        simp only [Option.map_some', Option.some.injEq, Prod.mk.injEq] at h
        obtain ⟨-, rfl⟩ := h
        have := extractIntCore_length hcore
        simp only [List.length_cons]
        omega
  · rename_i cs
    cases hcore : extractIntCore cs with
    | none => rw [hcore] at h; exact absurd h (by simp)
    | some p =>
        obtain ⟨v, r0⟩ := p
        rw [hcore] at h
        simp only [Option.map_some', Option.some.injEq, Prod.mk.injEq] at h
        obtain ⟨-, rfl⟩ := h
        have := extractIntCore_length hcore
        simp only [List.length_cons]
        omega
  · cases hcore : extractIntCore l with
    | none => rw [hcore] at h; exact absurd h (by simp)
    | some p =>
        obtain ⟨v, r0⟩ := p
        rw [hcore] at h
        simp only [Option.map_some', Option.some.injEq, Prod.mk.injEq] at h
        obtain ⟨-, rfl⟩ := h
        exact extractIntCore_length hcore

theorem extractRatMag_length {cs : List Char} {q : ℚ} {rest : List Char}
    (h : extractRatMag cs = some (q, rest)) : rest.length < cs.length := by
  unfold extractRatMag at h
  split at h
  · rename_i i ds rest0 heq
    have hl := takeDigits_length cs
    rw [heq] at hl
    split at h
    · rename_i cs2
      simp only [Option.some.injEq, Prod.mk.injEq] at h
      obtain ⟨-, rfl⟩ := h
      have hl2 := takeDigits_length cs2
      simp only [List.length_cons] at hl
      omega
    · simp only [Option.some.injEq, Prod.mk.injEq] at h
      obtain ⟨-, rfl⟩ := h
      simp only [List.length_cons] at hl
      omega
  · rename_i snd heq
    split at h
    · rename_i cs2
      split at h
      · rename_i f fs rest2 heq2
        simp only [Option.some.injEq, Prod.mk.injEq] at h
        obtain ⟨-, rfl⟩ := h
        have hl2 := takeDigits_length cs2
        rw [heq2] at hl2
        simp only [List.length_cons] at hl2 ⊢
        omega
      · exact absurd h (by simp)
    · exact absurd h (by simp)

theorem extractRat_length {l : List Char} {q : ℚ} {rest : List Char}
    (h : extractRat l = some (q, rest)) : rest.length < l.length := by
  unfold extractRat at h
  split at h
  · rename_i cs
    cases hcore : extractRatMag cs with
    | none => rw [hcore] at h; exact absurd h (by simp)
    | some p =>
        obtain ⟨v, r0⟩ := p
        rw [hcore] at h
        simp only [Option.map_some', Option.some.injEq, Prod.mk.injEq] at h
        obtain ⟨-, rfl⟩ := h
        have := extractRatMag_length hcore
        simp only [List.length_cons]
        omega
  · rename_i cs
    have := extractRatMag_length h
    simp only [List.length_cons]
    omega
  · exact extractRatMag_length h

theorem readStrTok_size {toks rest : List Tok} {x : String}
    (h : readStrTok toks = some (x, rest)) : streamSize rest < streamSize toks := by
  match toks with
  | [] => exact absurd h (by simp [readStrTok])
  | t :: r =>
      simp only [readStrTok, Option.some.injEq, Prod.mk.injEq] at h
      obtain ⟨-, rfl⟩ := h
      cases t <;> simp [streamSize, tokSize]

theorem readIntTok_size {toks rest : List Tok} {n : ℤ}
    (h : readIntTok toks = some (n, rest)) : streamSize rest < streamSize toks := by
  match toks with
  | [] => exact absurd h (by simp [readIntTok])
  | Tok.int m :: r =>
      simp only [readIntTok, Option.some.injEq, Prod.mk.injEq] at h
      obtain ⟨-, rfl⟩ := h
      simp [streamSize, tokSize]
  | Tok.rat p :: r =>
      simp only [readIntTok] at h
      split at h
      · simp only [Option.some.injEq, Prod.mk.injEq] at h
        obtain ⟨-, rfl⟩ := h
        simp [streamSize, tokSize]
      · exact absurd h (by simp)
  | Tok.str s :: r =>
      simp only [readIntTok] at h
      split at h
      · exact absurd h (by simp)
      · next n0 hx =>
          simp only [Option.some.injEq, Prod.mk.injEq] at h
          obtain ⟨-, rfl⟩ := h
          simp [streamSize, tokSize]
      · next n0 c cs hx =>
          simp only [Option.some.injEq, Prod.mk.injEq] at h
          obtain ⟨-, rfl⟩ := h
          have hlt := extractInt_length hx
          have h1 : (String.mk (c :: cs)).length = (c :: cs).length := rfl
          have h2 : s.toList.length = s.length := rfl
          simp only [streamSize, List.map_cons, List.sum_cons, tokSize]
          omega

theorem readRatTok_size {toks rest : List Tok} {p : ℚ}
    (h : readRatTok toks = some (p, rest)) : streamSize rest < streamSize toks := by
  match toks with
  | [] => exact absurd h (by simp [readRatTok])
  | Tok.rat m :: r =>
      simp only [readRatTok, Option.some.injEq, Prod.mk.injEq] at h
      obtain ⟨-, rfl⟩ := h
      simp [streamSize, tokSize]
  | Tok.int m :: r =>
      simp only [readRatTok, Option.some.injEq, Prod.mk.injEq] at h
      obtain ⟨-, rfl⟩ := h
      simp [streamSize, tokSize]
  | Tok.str s :: r =>
      simp only [readRatTok] at h
      split at h
      · exact absurd h (by simp)
      · next q0 hx =>
          simp only [Option.some.injEq, Prod.mk.injEq] at h
          obtain ⟨-, rfl⟩ := h
          simp [streamSize, tokSize]
      · next q0 c cs hx =>
          simp only [Option.some.injEq, Prod.mk.injEq] at h
          obtain ⟨-, rfl⟩ := h
          have hlt := extractRat_length hx
          have h1 : (String.mk (c :: cs)).length = (c :: cs).length := rfl
          have h2 : s.toList.length = s.length := rfl
          simp only [streamSize, List.map_cons, List.sum_cons, tokSize]
          omega

/-- The ten reads in loadFromFile's `while` condition:
`name roll class age gender mark0..mark4`.  A failure anywhere here (end of
input, or a numeric read on a token with no leading numeral) makes the loop
guard false; the partially overwritten record is never pushed, so only the
success shape matters.  A numeric read may consume just a numeral prefix of
a token and re-align the rest — exactly as `operator>>` does. -/
def parseHeader (toks : List Tok) : Option (Student × List Tok) :=
  match readStrTok toks with
  | none => none
  | some (name, t1) =>
    match readIntTok t1 with
    | none => none
    | some (roll, t2) =>
      match readStrTok t2 with
      | none => none
      | some (cls, t3) =>
        match readIntTok t3 with
        | none => none
        | some (age, t4) =>
          match readStrTok t4 with
          | none => none
          | some (gender, t5) =>
            match readRatTok t5 with
            | none => none
            | some (m0, t6) =>
              match readRatTok t6 with
              | none => none
              | some (m1, t7) =>
                match readRatTok t7 with
                | none => none
                | some (m2, t8) =>
                  match readRatTok t8 with
                  | none => none
                  | some (m3, t9) =>
                    match readRatTok t9 with
                    | none => none
                    | some (m4, t10) =>
                        some ({ name := name, rollNo := roll,
                                studentClass := cls, age := age,
                                gender := gender,
                                marks := mkMarks m0 m1 m2 m3 m4 }, t10)

theorem parseHeader_size {toks : List Tok} {s : Student} {rest : List Tok}
    (h : parseHeader toks = some (s, rest)) : streamSize rest < streamSize toks := by
  unfold parseHeader at h
  split at h
  · exact absurd h (by simp)
  · rename_i name t1 h1
    split at h
    · exact absurd h (by simp)
    · rename_i roll t2 h2
      split at h
      · exact absurd h (by simp)
      · rename_i cls t3 h3
        split at h
        · exact absurd h (by simp)
        · rename_i age t4 h4
          split at h
          · exact absurd h (by simp)
          · rename_i gender t5 h5
            split at h
            · exact absurd h (by simp)
            · rename_i m0 t6 h6
              split at h
              · exact absurd h (by simp)
              · rename_i m1 t7 h7
                split at h
                · exact absurd h (by simp)
                · rename_i m2 t8 h8
                  split at h
                  · exact absurd h (by simp)
                  · rename_i m3 t9 h9
                    split at h
                    · exact absurd h (by simp)
                    · rename_i m4 t10 h10
                      simp only [Option.some.injEq, Prod.mk.injEq] at h
                      obtain ⟨-, rfl⟩ := h
                      have s1 := readStrTok_size h1
                      have s2 := readIntTok_size h2
                      have s3 := readStrTok_size h3
                      have s4 := readIntTok_size h4
                      have s5 := readStrTok_size h5
                      have s6 := readRatTok_size h6
                      have s7 := readRatTok_size h7
                      have s8 := readRatTok_size h8
                      have s9 := readRatTok_size h9
                      have s10 := readRatTok_size h10
                      omega

/-- vector::resize(numRecords): keep the first `numRecords` old entries,
pad with value-initialised (empty-string) ones. -/
def resizeAtts (old : List AttendanceRecord) (n : ℕ) : List AttendanceRecord :=
  old.take n ++ List.replicate (n - old.length) ⟨"", ""⟩

theorem resizeAtts_length (old : List AttendanceRecord) (n : ℕ) :
    (resizeAtts old n).length = n := by
  simp [resizeAtts]
  omega

/-- The attendance-entry reads of loadFromFile's body, driven by the slots
that `resize(numRecords)` produced: the first `min(old, numRecords)` slots
still hold the previous record's entries, the rest are fresh empty ones.
Reads overwrite a slot's fields in order; once the input is exhausted the
sentry fails and every remaining field keeps the slot's current value
(possibly the previous record's data).  The Bool reports whether the
stream is still good. -/
def parseAttend : List AttendanceRecord → List Tok → List AttendanceRecord × List Tok × Bool
  | [], toks => ([], toks, true)
  | slot :: slots, [] => (slot :: slots, [], false)
  | slot :: slots, [t] => ({ slot with date := readStrT t } :: slots, [], false)
  | _ :: slots, t1 :: t2 :: rest =>
      let r := parseAttend slots rest
      (⟨readStrT t1, readStrT t2⟩ :: r.1, r.2.1, r.2.2)

theorem parseAttend_size (slots : List AttendanceRecord) (toks : List Tok) :
    streamSize (parseAttend slots toks).2.1 ≤ streamSize toks := by
  induction slots generalizing toks with
  | nil => simp [parseAttend]
  | cons slot slots ih =>
      match toks with
      | [] => simp [parseAttend, streamSize]
      | [t] => simp [parseAttend, streamSize]
      | t1 :: t2 :: rest =>
          have := ih rest
          simp only [parseAttend, streamSize, List.map_cons, List.sum_cons] at this ⊢
          omega

/-- Result of one iteration of loadFromFile's loop.  `stop none`: the guard
reads failed, nothing pushed, load ends.  `stop (some s)`: an unchecked body
read failed; the record is pushed anyway with the failure contents (a count
token with no numeral stores 0 and the resize drops the attendance; reads
whose sentry failed at end of input leave the previous contents, e.g. the
carried gpa), and the dead stream ends the load at the next guard.
`abort`: execution leaves the modelled fragment — a negative stored count
makes `resize` throw out of main, and end of input at the count read leaves
`numRecords` uninitialized, making the `resize` argument indeterminate
(undefined behavior).  `next`: full success, continue. -/
inductive LoadStep where
  | stop : Option Student → LoadStep
  | abort : LoadStep
  | next : Student → List Tok → LoadStep
deriving DecidableEq

/-- The unchecked body reads of one loadFromFile iteration (attendance
count, attendance entries, gpa).  `s0` is the record right after the ten
guard reads: fresh identity and marks, but still carrying the previous
iteration's attendance and gpa, which are overwritten only by reads that
happen and succeed. -/
def parseBody (s0 : Student) (t10 : List Tok) : LoadStep :=
  match readIntTok t10 with
  | none =>
      match t10 with
      | [] => .abort
      | _ :: _ => .stop (some { s0 with attendanceRecords := [] })
  | some (cnt, t11) =>
      if cnt < 0 then .abort
      else
        if (parseAttend (resizeAtts s0.attendanceRecords cnt.toNat) t11).2.2 = false then
          .stop (some { s0 with attendanceRecords := (parseAttend (resizeAtts s0.attendanceRecords cnt.toNat) t11).1 })
        else
          match readRatTok (parseAttend (resizeAtts s0.attendanceRecords cnt.toNat) t11).2.1 with
          | none =>
              match (parseAttend (resizeAtts s0.attendanceRecords cnt.toNat) t11).2.1 with
              | [] => .stop (some { s0 with attendanceRecords := (parseAttend (resizeAtts s0.attendanceRecords cnt.toNat) t11).1 })
              | _ :: _ => .stop (some { s0 with attendanceRecords := (parseAttend (resizeAtts s0.attendanceRecords cnt.toNat) t11).1, gpa := 0 })
          | some (g, t13) =>
              .next { s0 with attendanceRecords := (parseAttend (resizeAtts s0.attendanceRecords cnt.toNat) t11).1, gpa := g } t13

/-- One full iteration of loadFromFile's loop.  `carried` is the persistent
`Student s` declared outside the loop: percentage and grade are never
written by the load at all, and attendance slots and the gpa survive into
the body until (and unless) a read overwrites them. -/
def parseOne (carried : Student) (toks : List Tok) : LoadStep :=
  match parseHeader toks with
  | none => .stop none
  | some (hdr, t10) =>
      parseBody { hdr with attendanceRecords := carried.attendanceRecords, gpa := carried.gpa } t10

theorem parseBody_next_size {s0 : Student} {t10 rest : List Tok} {s : Student}
    (h : parseBody s0 t10 = .next s rest) : streamSize rest < streamSize t10 := by
  unfold parseBody at h
  split at h
  · split at h <;> exact absurd h (by simp)
  · rename_i cnt t11 hcnt
    split at h
    · exact absurd h (by simp)
    · split at h
      · exact absurd h (by simp)
      · split at h
        · split at h <;> exact absurd h (by simp)
        · rename_i g t13 hg
          simp only [LoadStep.next.injEq] at h
          obtain ⟨-, rfl⟩ := h
          have h1 := readIntTok_size hcnt
          have h2 := parseAttend_size (resizeAtts s0.attendanceRecords cnt.toNat) t11
          have h3 := readRatTok_size hg
          omega

theorem parseOne_next_size {carried : Student} {toks rest : List Tok} {s : Student}
    (h : parseOne carried toks = .next s rest) : streamSize rest < streamSize toks := by
  unfold parseOne at h
  split at h
  · exact absurd h (by simp)
  · rename_i hdr t10 hh
    have := parseBody_next_size h
    have := parseHeader_size hh
    omega

/-- FileHandler::loadFromFile over the token stream, threading the
persistent `Student s` across loop iterations.  `none` models execution
leaving the modelled fragment (negative or uninitialized attendance count
reaching `resize`); otherwise the list of records accumulated when the
loop guard finally fails. -/
def loadAux (carried : Student) (toks : List Tok) : Option (List Student) :=
  match h : parseOne carried toks with
  | .stop none => some []
  | .stop (some s) => some [s]
  | .abort => none
  | .next s rest => (loadAux s rest).map (fun l => s :: l)
termination_by streamSize toks
decreasing_by exact parseOne_next_size h

/-- FileHandler::loadFromFile: the loop starts from the freshly declared
`Student s` with its in-class initialisers (rollNo and age carry no
initialiser in the source, but they are always overwritten before any
pushed record can expose them). -/
def loadTokens (toks : List Tok) : Option (List Student) :=
  loadAux {} toks

/-- What a successfully loaded record looks like relative to the record that
was saved: the identity fields, marks and attendance come back exactly; the
derived percentage and grade are the struct defaults (they are not in the
store); the gpa is the two-decimal persisted value. -/
def reloadStudent (s : Student) : Student :=
  { s with percentage := 0, grade := 'F', gpa := fix2 s.gpa }

/-- Every string field of every record of the roster is a single store
token (non-empty, no internal whitespace). -/
def rosterSingleTok (roster : List Student) : Prop :=
  ∀ s ∈ roster, singleTok s.name ∧ singleTok s.studentClass ∧
    singleTok s.gender ∧
    ∀ a ∈ s.attendanceRecords, singleTok a.date ∧ singleTok a.status

instance (roster : List Student) : Decidable (rosterSingleTok roster) := by
  unfold rosterSingleTok; infer_instance

/-! ## CSV import (ExtendedStudentOperations::importFromCSV) -/

/-- One data line of the CSV file, already split at the commas
(`getline(ss, temp, ',')`).  Columns: Roll,Name,Class,Age,Gender,
Percentage,Grade,GPA[,...].  `stoi`/`stof` parse the longest leading
numeral of their field and a failure (no numeral) throws out of the
whole import (`none`); `temp[0]` on the grade column is the first
character (the null character for an empty column). -/
def importRow (fields : List String) : Option Student :=
  match fields with
  | roll :: name :: cls :: age :: gender :: pct :: grade :: gpa :: _ => do
      let r ← decIntStr roll
      let a ← decIntStr age
      let p ← decRatStr pct
      let g ← decRatStr gpa
      some { name := name, rollNo := r, studentClass := cls, age := a,
             gender := gender, percentage := p,
             grade := grade.toList.headD (Char.ofNat 0), gpa := g }
  | _ => none

/-- ExtendedStudentOperations::importFromCSV over the data rows (the header
line is already skipped).  NOTE the order in the source:
`students.push_back(s); gradeCalc->calculateGrade(s);` — the record is
copied into the roster first, and the grade recomputation is applied to the
local `s`, which the next loop iteration discards.  The roster therefore
keeps the record exactly as parsed; the embedding mirrors the dead
recomputation as a discarded binding. -/
def importFromCSV (rows : List (List String)) (roster : List Student) :
    Option (List Student) :=
  match rows with
  | [] => some roster
  | row :: rest => do
      let s ← importRow row
      let _ := recomputeGrade s
      importFromCSV rest (roster ++ [s])

/-! ## Stepping equations for `loadAux` (it is defined by well-founded
recursion, so its equations are exposed as lemmas). -/

theorem loadAux_stop_none {carried : Student} {toks : List Tok}
    (h : parseOne carried toks = .stop none) : loadAux carried toks = some [] := by
  rw [loadAux]
  split <;> simp_all

theorem loadAux_stop_some {carried : Student} {toks : List Tok} {s : Student}
    (h : parseOne carried toks = .stop (some s)) : loadAux carried toks = some [s] := by
  rw [loadAux]
  split <;> simp_all

theorem loadAux_next {carried : Student} {toks rest : List Tok} {s : Student}
    (h : parseOne carried toks = .next s rest) :
    loadAux carried toks = (loadAux s rest).map (fun l => s :: l) := by
  rw [loadAux]
  split <;> simp_all

/-! # Claims -/

/-- C4, counterexample: the claim puts out-of-range percentages above 100
with the F/0.0 bucket, but the threshold chain tests `>= 90` first, so a
percentage of 150 grades as A with gpa 4.0, not F/0.0. -/
theorem c4_above100_gives_A_cex :
    calcGrade 150 = 'A' ∧ calcGPA 150 = 4 ∧ 'A' ≠ 'F' ∧ (4 : ℚ) ≠ 0 := by
  refine ⟨by decide, by decide, by decide, by norm_num⟩

/-- C4 (amended): grade and gpa are pure total functions of the percentage
with exactly the five bucket thresholds; p ≥ 90 (including every value
above 100 — inputs are not clamped) gives A/4.0, 80 ≤ p < 90 gives B/3.0,
70 ≤ p < 80 gives C/2.0, 60 ≤ p < 70 gives D/1.0, and every value below 60
(including negative values and 59.999) gives F/0.0; the boundary values
90, 80, 70, 60 land in the A, B, C, D buckets exactly. -/
theorem c4_grade_policy_buckets (p : ℚ) :
    (90 ≤ p → calcGrade p = 'A' ∧ calcGPA p = 4) ∧
    (80 ≤ p ∧ p < 90 → calcGrade p = 'B' ∧ calcGPA p = 3) ∧
    (70 ≤ p ∧ p < 80 → calcGrade p = 'C' ∧ calcGPA p = 2) ∧
    (60 ≤ p ∧ p < 70 → calcGrade p = 'D' ∧ calcGPA p = 1) ∧
    (p < 60 → calcGrade p = 'F' ∧ calcGPA p = 0) := by
  refine ⟨fun h => ⟨?_, ?_⟩, fun h => ⟨?_, ?_⟩, fun h => ⟨?_, ?_⟩,
          fun h => ⟨?_, ?_⟩, fun h => ⟨?_, ?_⟩⟩ <;>
    simp only [calcGrade, calcGPA] <;>
    (try obtain ⟨h1, h2⟩ := h) <;>
    split_ifs <;>
    first
      | rfl
      | (exfalso; linarith)

/-- Witness for c4_grade_policy_buckets at the boundary percentage 90. -/
theorem c4_grade_policy_buckets_witness :
    calcGrade 90 = 'A' ∧ calcGPA 90 = 4 :=
  (c4_grade_policy_buckets 90).1 (by norm_num)

/-- C10: the monthly aggregation's positional extraction
`date.substr(5, 2)` / `date.substr(0, 4)` is well-defined exactly when the
stored date string has length at least 5; on a shorter date the substring
access is out of range, and the aggregation's error branch is reached by a
concrete ledger holding the unvalidated date "ab". -/
theorem c10_month_substring_domain :
    (∀ d : String, 5 ≤ d.length → (monthKey d).isSome = true) ∧
    (∀ d : String, d.length < 5 → monthKey d = none) ∧
    monthlyCounts "01-2024" [⟨"ab", "Present"⟩] = none := by
  refine ⟨fun d h => ?_, fun d h => ?_, ?_⟩
  · simp [monthKey, substrCpp, h]
  · simp [monthKey, substrCpp, show ¬ 5 ≤ d.length by omega]
  · decide

/-- Witness for c10_month_substring_domain on a well-formed and a short
date. -/
theorem c10_month_substring_domain_witness :
    (monthKey "2024-01-15").isSome = true ∧ monthKey "ab" = none :=
  ⟨(c10_month_substring_domain).1 "2024-01-15" (by decide),
   (c10_month_substring_domain).2.1 "ab" (by decide)⟩

/-- C8: statistics over a class signals the distinct no-students outcome
exactly when the class filter selects nothing — computing no averages in
that case — and on a non-empty filtered set every average is the total over
precisely the matching records divided by their number. -/
theorem c8_statistics_empty_class (cls : String) (roster : List Student) :
    (showStatistics cls roster = none ↔ classFilter cls roster = []) ∧
    ∀ st : ClassStats, showStatistics cls roster = some st →
      classFilter cls roster ≠ [] ∧
      st.count = (classFilter cls roster).length ∧
      st.avgPercentage = ((classFilter cls roster).map (·.percentage)).sum
          / ((classFilter cls roster).length : ℚ) ∧
      st.avgGPA = ((classFilter cls roster).map (·.gpa)).sum
          / ((classFilter cls roster).length : ℚ) ∧
      st.avgGPA5 = ((classFilter cls roster).map (·.gpa)).sum
          / ((classFilter cls roster).length : ℚ) * 5 / 4 ∧
      st.avgAttendance = ((classFilter cls roster).map attendancePercentage).sum
          / ((classFilter cls roster).length : ℚ) ∧
      ∀ g : Char, st.gradeDist g =
        ((classFilter cls roster).filter (fun s => decide (s.grade = g))).length := by
  constructor
  · constructor
    · intro h
      by_contra hne
      simp [showStatistics, hne] at h
    · intro h
      simp [showStatistics, h]
  · intro st h
    have hne : classFilter cls roster ≠ [] := by
      intro hh
      simp [showStatistics, hh] at h
    simp only [showStatistics, if_neg hne] at h
    injection h with h
    subst h
    exact ⟨hne, rfl, rfl, rfl, rfl, rfl, fun g => rfl⟩

/-- Witness for c8_statistics_empty_class: a class with no members signals
the empty outcome. -/
theorem c8_statistics_empty_class_witness :
    showStatistics "X" [] = none :=
  (c8_statistics_empty_class "X" []).1.mpr rfl

/-- C7: delete removes every record whose rollNo equals the requested roll
(the remaining list is a sublist of the roster, so relative order is
preserved; non-matching records keep their multiplicity), and reports
not-found, leaving the roster unchanged, exactly when no record matches. -/
theorem c7_delete_filters_all (roll : ℤ) (roster : List Student) :
    (deleteStudent roll roster).1.Sublist roster ∧
    (∀ s ∈ (deleteStudent roll roster).1, s.rollNo ≠ roll) ∧
    (∀ s : Student, s.rollNo ≠ roll →
      (deleteStudent roll roster).1.count s = roster.count s) ∧
    ((deleteStudent roll roster).2 = false ↔ ∀ s ∈ roster, s.rollNo ≠ roll) ∧
    ((deleteStudent roll roster).2 = false → (deleteStudent roll roster).1 = roster) := by
  refine ⟨List.filter_sublist roster, fun s hs => ?_, fun s hs => ?_, ?_, fun h => ?_⟩
  · have := (List.mem_filter.mp hs).2
    simpa using this
  · exact List.count_filter (by simpa using hs)
  · simp only [deleteStudent, decide_not]
    constructor
    · intro h s hs
      have hlen : (roster.filter (fun s => !decide (s.rollNo = roll))).length = roster.length := by
        by_contra hne
        simp [hne] at h
      have := List.filter_length_eq_length.mp hlen s hs
      simpa using this
    · intro h
      have : roster.filter (fun s => !decide (s.rollNo = roll)) = roster :=
        List.filter_eq_self.mpr (fun a ha => by simpa using h a ha)
      simp [this]
  · have hall : ∀ s ∈ roster, s.rollNo ≠ roll := by
      simp only [deleteStudent, decide_not] at h
      intro s hs
      by_contra he
      have hlen : (roster.filter (fun s => !decide (s.rollNo = roll))).length = roster.length := by
        by_contra hne
        simp [hne] at h
      have := List.filter_length_eq_length.mp hlen s hs
      simp [he] at this
    simp only [deleteStudent]
    exact List.filter_eq_self.mpr (fun a ha => by simpa using hall a ha)

/-- Witness for c7_delete_filters_all: deleting roll 1 from a roster with a
duplicated roll 1 keeps the multiplicity of the surviving roll-2 record, and
deleting an absent roll reports not-found and changes nothing. -/
theorem c7_delete_filters_all_witness :
    (deleteStudent 1 [{ rollNo := 1 }, { rollNo := 2 }, { rollNo := 1 }]).1.count
        { rollNo := 2 } =
      ([{ rollNo := 1 }, { rollNo := 2 }, { rollNo := 1 }] : List Student).count
        { rollNo := 2 } ∧
    (deleteStudent 3 [{ rollNo := 2 }]).1 = [{ rollNo := 2 }] :=
  ⟨(c7_delete_filters_all 1 [{ rollNo := 1 }, { rollNo := 2 }, { rollNo := 1 }]).2.2.1
      { rollNo := 2 } (by decide),
   (c7_delete_filters_all 3 [{ rollNo := 2 }]).2.2.2.2 (by decide)⟩

/-- C1: the derived-field invariant is broken by importFromCSV.  The source
pushes the parsed record into the roster and only then runs the grade
recomputation — on the local copy that the loop discards.  Importing the
single data row `7,Ann,C1,10,F,88,B,3.0` therefore leaves a roster record
whose marks are all zero but whose percentage is the CSV's 88, violating
percentage = sum(marks)/5 (and grade/gpa consistency) after the operation
returns. -/
theorem c1_import_breaks_derived_invariant :
    importFromCSV [["7", "Ann", "C1", "10", "F", "88", "B", "3"]] [] =
      some [{ name := "Ann", rollNo := 7, studentClass := "C1", age := 10,
              gender := "F", percentage := 88, grade := 'B', gpa := 3 }] ∧
    ¬ derivedConsistent
      { name := "Ann", rollNo := 7, studentClass := "C1", age := 10,
        gender := "F", percentage := 88, grade := 'B', gpa := 3 } := by
  refine ⟨by decide, ?_⟩
  norm_num [derivedConsistent, sumMarks]

/-- C2: the record that ends up in the roster after CSV import retains the
Percentage/Grade/GPA read from the file instead of the GradePolicy
recomputation from its (all-zero) marks: importing `8,Bob,C2,11,M,92,A,4.0`
stores grade 'A'/gpa 4/percentage 92, while recomputing from the record's
marks would give 'F'/0/0. -/
theorem c2_import_retains_csv_grade :
    importFromCSV [["8", "Bob", "C2", "11", "M", "92", "A", "4"]] [] =
      some [{ name := "Bob", rollNo := 8, studentClass := "C2", age := 11,
              gender := "M", percentage := 92, grade := 'A', gpa := 4 }] ∧
    (recomputeGrade
      { name := "Bob", rollNo := 8, studentClass := "C2", age := 11,
        gender := "M", percentage := 92, grade := 'A', gpa := 4 }).grade = 'F' ∧
    (recomputeGrade
      { name := "Bob", rollNo := 8, studentClass := "C2", age := 11,
        gender := "M", percentage := 92, grade := 'A', gpa := 4 }).percentage = 0 ∧
    'A' ≠ 'F' := by
  refine ⟨by decide, ?_, ?_, by decide⟩ <;>
    norm_num [recomputeGrade, sumMarks, calcGrade, calcGPA]

/-- C3, counterexample: sortStudents calls `std::sort`, which guarantees only
a sorted permutation, not stability.  For the two distinct records of roll 1
in order [A, B], the output [B, A] satisfies the std::sort postcondition yet
swaps the prior relative order of the equal-roll records — so stability does
not hold for every admissible sort result. -/
theorem c3_sort_not_stable_cex :
    sortStudentsPost
      [{ name := "A", rollNo := 1 }, { name := "B", rollNo := 1 }]
      [{ name := "B", rollNo := 1 }, { name := "A", rollNo := 1 }] ∧
    ([{ name := "B", rollNo := 1 }, { name := "A", rollNo := 1 }] : List Student) ≠
      [{ name := "A", rollNo := 1 }, { name := "B", rollNo := 1 }] := by
  exact ⟨by decide, by decide⟩

/-- C3 (amended): sortStudents sorts the roster ascending by rollNo — a
sorted result always exists, and the sequence of roll numbers of the result
is uniquely determined by the input — but records with equal rollNo may come
out in any relative order (std::sort is not stable). -/
theorem c3_sort_ascending_by_roll (roster : List Student) :
    (∃ out, sortStudentsPost roster out) ∧
    ∀ out₁ out₂, sortStudentsPost roster out₁ → sortStudentsPost roster out₂ →
      out₁.map Student.rollNo = out₂.map Student.rollNo := by
  haveI : DecidableRel (fun a b : Student => a.rollNo ≤ b.rollNo) :=
    fun a b => inferInstanceAs (Decidable (a.rollNo ≤ b.rollNo))
  constructor
  · refine ⟨List.insertionSort (fun a b => a.rollNo ≤ b.rollNo) roster, ?_, ?_⟩
    · exact (List.perm_insertionSort _ roster).symm
    · haveI : IsTotal Student (fun a b => a.rollNo ≤ b.rollNo) :=
        ⟨fun a b => le_total _ _⟩
      haveI : IsTrans Student (fun a b => a.rollNo ≤ b.rollNo) :=
        ⟨fun a b c hab hbc => le_trans hab hbc⟩
      exact List.sorted_insertionSort _ roster
  · rintro out₁ out₂ ⟨hp₁, hs₁⟩ ⟨hp₂, hs₂⟩
    have hperm : (out₁.map Student.rollNo).Perm (out₂.map Student.rollNo) :=
      (hp₁.symm.trans hp₂).map Student.rollNo
    have hs₁' : (out₁.map Student.rollNo).Sorted (· ≤ ·) :=
      List.Pairwise.map _ (fun a b h => h) hs₁
    have hs₂' : (out₂.map Student.rollNo).Sorted (· ≤ ·) :=
      List.Pairwise.map _ (fun a b h => h) hs₂
    exact List.eq_of_perm_of_sorted hperm hs₁' hs₂'

/-- Witness for c3_sort_ascending_by_roll on a concrete two-record roster. -/
theorem c3_sort_ascending_by_roll_witness :
    ([{ name := "A", rollNo := 1 }, { name := "B", rollNo := 2 }] : List Student).map
        Student.rollNo =
      [{ name := "A", rollNo := 1 }, { name := "B", rollNo := 2 }].map Student.rollNo :=
  (c3_sort_ascending_by_roll [{ name := "B", rollNo := 2 }, { name := "A", rollNo := 1 }]).2
    [{ name := "A", rollNo := 1 }, { name := "B", rollNo := 2 }]
    [{ name := "A", rollNo := 1 }, { name := "B", rollNo := 2 }]
    (by decide) (by decide)

/-! ## Invariants of the findTopper scan -/

theorem findTopperAux_none {cls : String} {maxP : ℚ} {top : Option Student}
    {l : List Student} (h : findTopperAux cls maxP top l = none) :
    top = none ∧ ∀ s ∈ l, s.studentClass = cls → s.percentage ≤ maxP := by
  induction l generalizing maxP top with
  | nil =>
      simp only [findTopperAux] at h
      exact ⟨h, by simp⟩
  | cons s rest ih =>
      simp only [findTopperAux] at h
      split_ifs at h with hc
      · exact absurd (ih h).1 (by simp)
      · refine ⟨(ih h).1, ?_⟩
        intro u hu hucls
        rcases List.mem_cons.mp hu with rfl | hu'
        · by_contra hgt
          exact hc ⟨hucls, by linarith⟩
        · exact (ih h).2 u hu' hucls

theorem findTopperAux_none_of_le {cls : String} {maxP : ℚ} {l : List Student}
    (h : ∀ s ∈ l, s.studentClass = cls → s.percentage ≤ maxP) :
    findTopperAux cls maxP none l = none := by
  induction l generalizing maxP with
  | nil => simp [findTopperAux]
  | cons s rest ih =>
      simp only [findTopperAux]
      rw [if_neg]
      · exact ih (fun u hu hc => h u (List.mem_cons.mpr (Or.inr hu)) hc)
      · rintro ⟨hc, hlt⟩
        have := h s (List.mem_cons_self s rest) hc
        linarith

theorem findTopperAux_some_spec {cls : String} {maxP : ℚ} {top : Option Student}
    {l : List Student} {t : Student} (h : findTopperAux cls maxP top l = some t) :
    (top = some t ∧ ∀ s ∈ l, s.studentClass = cls → s.percentage ≤ maxP) ∨
    (∃ l₁ l₂, l = l₁ ++ t :: l₂ ∧ t.studentClass = cls ∧ maxP < t.percentage ∧
      (∀ s ∈ l₁, s.studentClass = cls → s.percentage < t.percentage) ∧
      (∀ s ∈ l₂, s.studentClass = cls → s.percentage ≤ t.percentage)) := by
  induction l generalizing maxP top with
  | nil =>
      left
      simp only [findTopperAux] at h
      exact ⟨h, by simp⟩
  | cons s rest ih =>
      simp only [findTopperAux] at h
      split_ifs at h with hc
      · rcases ih h with ⟨heq, hle⟩ | ⟨l₁, l₂, heq, htc, hlt, hall, hle2⟩
        · injection heq with heq
          subst heq
          right
          exact ⟨[], rest, by simp, hc.1, hc.2, by simp, hle⟩
        · right
          refine ⟨s :: l₁, l₂, by simp [heq], htc, by linarith [hc.2], ?_, hle2⟩
          intro u hu hucls
          rcases List.mem_cons.mp hu with rfl | hu'
          · exact hlt
          · exact hall u hu' hucls
      · rcases ih h with ⟨heq, hle⟩ | ⟨l₁, l₂, heq, htc, hlt, hall, hle2⟩
        · left
          refine ⟨heq, ?_⟩
          intro u hu hucls
          rcases List.mem_cons.mp hu with rfl | hu'
          · by_contra hgt
            exact hc ⟨hucls, by linarith⟩
          · exact hle u hu' hucls
        · right
          refine ⟨s :: l₁, l₂, by simp [heq], htc, hlt, ?_, hle2⟩
          intro u hu hucls
          rcases List.mem_cons.mp hu with rfl | hu'
          · have hle' : u.percentage ≤ maxP := by
              by_contra hgt
              exact hc ⟨hucls, by linarith⟩
            linarith
          · exact hall u hu' hucls

/-- The record findTopper claims for a class: a class member above the -1
sentinel that no class member beats, and that strictly beats every earlier
class member (so the earliest maximum wins ties). -/
def isFirstMax (cls : String) (roster : List Student) (t : Student) : Prop :=
  t.studentClass = cls ∧ -1 < t.percentage ∧
  (∀ s ∈ roster, s.studentClass = cls → s.percentage ≤ t.percentage) ∧
  ∃ l₁ l₂, roster = l₁ ++ t :: l₂ ∧
    ∀ s ∈ l₁, s.studentClass = cls → s.percentage < t.percentage

/-- C9, counterexample: the scan starts from the sentinel `maxPercentage
= -1` with a strict `>` test, so a class whose only member has percentage
-2 (reachable: negative marks or CSV import) makes findTopper report
no-students even though the class is non-empty and has a maximal record. -/
theorem c9_topper_sentinel_cex :
    findTopper "C1" [{ name := "A", studentClass := "C1", percentage := -2 }] = none ∧
    classFilter "C1" [{ name := "A", studentClass := "C1", percentage := -2 }] ≠ [] := by
  exact ⟨by decide, by decide⟩

/-- C9 (amended): findTopper returns none exactly when every class member
has percentage ≤ -1 (in particular when the class is empty); when it
returns a record, that record is the earliest class member attaining the
maximal percentage (ties broken in favour of the earliest record, because a
strict greater-than comparison is used during the scan); in particular on
class members [(A,70), (B,85), (C,85)] in that order it returns B. -/
theorem c9_topper_first_max (cls : String) (roster : List Student) :
    (findTopper cls roster = none ↔
      ∀ s ∈ roster, s.studentClass = cls → s.percentage ≤ -1) ∧
    (∀ t, findTopper cls roster = some t → isFirstMax cls roster t) ∧
    findTopper "X"
      [{ name := "A", studentClass := "X", percentage := 70 },
       { name := "B", studentClass := "X", percentage := 85 },
       { name := "C", studentClass := "X", percentage := 85 }] =
      some { name := "B", studentClass := "X", percentage := 85 } := by
  refine ⟨⟨fun h => (findTopperAux_none h).2, fun h => findTopperAux_none_of_le h⟩,
          fun t h => ?_, by decide⟩
  rcases findTopperAux_some_spec h with ⟨heq, _⟩ | ⟨l₁, l₂, heq, htc, hlt, hall, hle2⟩
  · exact absurd heq (by simp)
  · subst heq
    refine ⟨htc, hlt, ?_, l₁, l₂, rfl, hall⟩
    intro u hu hucls
    rcases List.mem_append.mp hu with hu₁ | hu₂
    · exact le_of_lt (hall u hu₁ hucls)
    · rcases List.mem_cons.mp hu₂ with rfl | hu₂'
      · exact le_refl _
      · exact hle2 u hu₂' hucls

/-- Witness for c9_topper_first_max on a one-member class. -/
theorem c9_topper_first_max_witness :
    isFirstMax "X" [{ name := "B", studentClass := "X", percentage := 85 }]
      { name := "B", studentClass := "X", percentage := 85 } :=
  (c9_topper_first_max "X"
      [{ name := "B", studentClass := "X", percentage := 85 }]).2.1
    { name := "B", studentClass := "X", percentage := 85 } (by decide)

/-! ## Round-trip lemmas for the native store -/

theorem parseAttend_roundtrip {atts : List AttendanceRecord}
    (h : ∀ a ∈ atts, singleTok a.date ∧ singleTok a.status)
    {slots : List AttendanceRecord} (hlen : slots.length = atts.length)
    (t : List Tok) :
    parseAttend slots
        ((atts.flatMap fun a => fieldToks a.date ++ fieldToks a.status) ++ t) =
      (atts, t, true) := by
  induction atts generalizing slots with
  | nil =>
      have hnil : slots = [] := List.length_eq_zero.mp (by simpa using hlen)
      subst hnil
      simp [parseAttend]
  | cons a rest ih =>
      match slots with
      | [] => simp at hlen
      | slot :: slots' =>
          have hd := (h a (List.mem_cons_self a rest)).1
          have hs := (h a (List.mem_cons_self a rest)).2
          rw [List.flatMap_cons, hd, hs]
          simp only [List.cons_append, List.nil_append, List.append_assoc,
            List.append_eq, parseAttend, readStrT]
          rw [ih (fun u hu => h u (List.mem_cons.mpr (Or.inr hu))) (by simpa using hlen)]

theorem parseOne_save (carried : Student) {s : Student} (hn : singleTok s.name)
    (hc : singleTok s.studentClass) (hg : singleTok s.gender)
    (ha : ∀ a ∈ s.attendanceRecords, singleTok a.date ∧ singleTok a.status)
    (t : List Tok) :
    parseOne carried (saveStudent s ++ t) = .next (reloadStudent s) t := by
  unfold saveStudent
  rw [hn, hc, hg]
  simp only [List.cons_append, List.nil_append, List.append_assoc, List.append_eq]
  unfold parseOne
  simp only [parseHeader, readStrTok, readIntTok, readRatTok, readStrT]
  unfold parseBody
  simp only [readIntTok, Int.toNat_natCast]
  rw [if_neg (not_lt.mpr (Int.natCast_nonneg _))]
  rw [parseAttend_roundtrip ha (resizeAtts_length _ _) (Tok.rat (fix2 s.gpa) :: t)]
  simp [reloadStudent, mkMarks_eta, readRatTok]

theorem load_save_append (roster : List Student) (tail : List Tok)
    (ht : parseHeader tail = none) :
    ∀ carried, rosterSingleTok roster →
      loadAux carried (saveToFile roster ++ tail) = some (roster.map reloadStudent) := by
  induction roster with
  | nil =>
      intro carried hr
      simp only [saveToFile, List.flatMap_nil, List.nil_append, List.map_nil]
      exact loadAux_stop_none (by unfold parseOne; rw [ht])
  | cons s rest ih =>
      intro carried hr
      have hs := hr s (List.mem_cons_self s rest)
      have hstep := parseOne_save carried hs.1 hs.2.1 hs.2.2.1 hs.2.2.2
        (saveToFile rest ++ tail)
      have hrest : rosterSingleTok rest := fun u hu => hr u (List.mem_cons.mpr (Or.inr hu))
      simp only [saveToFile, List.flatMap_cons, List.append_assoc] at hstep ⊢
      rw [loadAux_next hstep]
      have ih' := ih (reloadStudent s) hrest
      simp only [saveToFile] at ih'
      rw [ih']
      simp

/-- C5, counterexample: the round-trip promise conditioned only on
names/classes/genders being whitespace-free fails when an attendance DATE
contains internal whitespace (the date field is an unvalidated string and
is written raw between separators).  Saving a roster whose single record
has name "A", class "C", gender "M" (all single tokens) and the attendance
entry ("2024 01-01", "Present") loads back a record whose attendance entry
is ("2024", "01-01") — not the entry that was saved. -/
theorem c5_roundtrip_whitespace_date_cex :
    loadTokens (saveToFile
        [{ name := "A", rollNo := 1, studentClass := "C", age := 9, gender := "M",
           attendanceRecords := [{ date := "2024 01-01", status := "Present" }] }]) =
      some [{ name := "A", rollNo := 1, studentClass := "C", age := 9, gender := "M",
              marks := mkMarks 0 0 0 0 0,
              attendanceRecords := [{ date := "2024", status := "01-01" }] }] ∧
    ([{ date := "2024", status := "01-01" }] : List AttendanceRecord) ≠
      [{ date := "2024 01-01", status := "Present" }] ∧
    singleTok "A" ∧ singleTok "C" ∧ singleTok "M" := by
  have h1 : saveToFile
      [{ name := "A", rollNo := 1, studentClass := "C", age := 9, gender := "M",
         attendanceRecords := [{ date := "2024 01-01", status := "Present" }] }] =
      [Tok.str "A", Tok.int 1, Tok.str "C", Tok.int 9, Tok.str "M",
       Tok.rat 0, Tok.rat 0, Tok.rat 0, Tok.rat 0, Tok.rat 0, Tok.int 1,
       Tok.str "2024", Tok.str "01-01", Tok.str "Present", Tok.rat (fix2 0)] := rfl
  have h2 : fix2 0 = 0 := by norm_num [fix2]
  refine ⟨?_, by decide, by decide, by decide, by decide⟩
  rw [h1, h2]
  exact loadAux_stop_some (by decide)

/-- C5 (amended): for every roster whose names, classes, genders AND
attendance dates and statuses are non-empty and contain no internal
whitespace, saving to the native store and then loading reproduces every
record's name, rollNo, studentClass, age, gender, all five marks, and all
attendance entries (dates and statuses, in order) exactly — the loaded
record differs only in the derived percentage/grade (reset to their
defaults, they are not persisted) and in the gpa, which comes back rounded
to the two decimals the store keeps. -/
theorem c5_save_load_roundtrip (roster : List Student)
    (hr : rosterSingleTok roster) :
    loadTokens (saveToFile roster) = some (roster.map reloadStudent) := by
  have h := load_save_append roster [] rfl ({} : Student) hr
  simpa [loadTokens] using h

/-- Witness for c5_save_load_roundtrip on a one-record roster with an
attendance entry. -/
theorem c5_save_load_roundtrip_witness :
    loadTokens (saveToFile
        [{ name := "Ann", rollNo := 3, studentClass := "C1", age := 10,
           gender := "F",
           attendanceRecords := [{ date := "2024-01-15", status := "Present" }] }]) =
      some ([{ name := "Ann", rollNo := 3, studentClass := "C1", age := 10,
               gender := "F",
               attendanceRecords := [{ date := "2024-01-15", status := "Present" }] }].map
        reloadStudent) :=
  c5_save_load_roundtrip _ (by decide)

/-- C6, counterexample: a record whose attendance-count field is present
but bears no numeral (here the token "xyz") is NOT dropped: the count
read's sentry succeeds, the failed extraction stores 0 (C++11), the resize
drops the attendance, the gpa read on the now-dead stream fails its sentry
and keeps the previous gpa (0 for a first record), and the
partially-parsed record is still pushed before the failed stream ends the
loop.  The claim predicts the empty roster here; the code returns the
partial record. -/
theorem c6_load_keeps_malformed_count_record_cex :
    loadTokens [Tok.str "Ann", Tok.int 1, Tok.str "C1", Tok.int 10, Tok.str "F",
        Tok.rat 1, Tok.rat 2, Tok.rat 3, Tok.rat 4, Tok.rat 5, Tok.str "xyz"] =
      some [{ name := "Ann", rollNo := 1, studentClass := "C1", age := 10,
              gender := "F", marks := mkMarks 1 2 3 4 5 }] ∧
    some [{ name := "Ann", rollNo := 1, studentClass := "C1", age := 10,
            gender := "F", marks := mkMarks 1 2 3 4 5 }] ≠
      some ([] : List Student) := by
  exact ⟨loadAux_stop_some (by decide), by decide⟩

/-- Tails on which loadFromFile's ten-field guard provably fails the same
way in the embedding and under real extraction semantics: the stream ends
within the first two fields, or the second field is a text token bearing
no leading numeral, so the rollNo extraction fails without consuming
anything.  (A digit-bearing second field is excluded: `operator>>` would
consume its numeral and re-align on the remainder.) -/
def cleanTailFailB : List Tok → Bool
  | [] => true
  | [_] => true
  | _ :: Tok.str u :: _ => (extractInt u.toList).isNone
  | _ => false

theorem parseHeader_none_of_cleanTail {bad : List Tok}
    (h : cleanTailFailB bad = true) : parseHeader bad = none := by
  match bad with
  | [] => rfl
  | [t] => rfl
  | t :: Tok.str u :: rest =>
      have hnone : extractInt u.data = none := by
        simpa [cleanTailFailB, Option.isNone_iff_eq_none, String.toList] using h
      simp [parseHeader, readStrTok, readIntTok, hnone]
  | t :: Tok.int n :: rest => simp [cleanTailFailB] at h
  | t :: Tok.rat q :: rest => simp [cleanTailFailB] at h

/-- C6 (amended): native-store load stops at the first malformed or
incomplete record and returns exactly the records fully parsed before it —
silently, without a hard failure — provided the failure is a clean one
within the record's first two fields: the input ends there, or the
roll-number field bears no numeral at all.  Malformations deeper in a
record behave differently: a count field without a numeral still appends
the partially-parsed record (see the counterexample), a digit-bearing
field is consumed as a numeral prefix and re-aligns the reader, and input
that ends exactly at the attendance count reaches `resize` with an
uninitialized size (undefined behavior). -/
theorem c6_load_stops_at_malformed_header (roster : List Student)
    (bad : List Tok) (hr : rosterSingleTok roster)
    (hbad : cleanTailFailB bad = true) :
    loadTokens (saveToFile roster ++ bad) = some (roster.map reloadStudent) :=
  load_save_append roster bad (parseHeader_none_of_cleanTail hbad) {} hr

/-- Witness for c6_load_stops_at_malformed_header: a well-formed record
followed by a lone garbage token loads as exactly that record. -/
theorem c6_load_stops_at_malformed_header_witness :
    loadTokens (saveToFile
        [{ name := "Bo", rollNo := 2, studentClass := "C2", age := 11,
           gender := "M" }] ++ [Tok.str "garbage"]) =
      some ([{ name := "Bo", rollNo := 2, studentClass := "C2", age := 11,
               gender := "M" }].map reloadStudent) :=
  c6_load_stops_at_malformed_header _ [Tok.str "garbage"] (by decide) (by decide)

end StudentMgmt
